import Mathlib

/-!
Shallow embedding of `src/jina/types/routing/table.py`
(classes `TargetPod` and `RoutingTable`).

Modelling conventions:

* Protobuf messages become plain records; protobuf scalar defaults
  (`""` for strings, `0` for integers, `[]` for repeated fields) are the
  default record values (`defaultTargetPod`).
* The protobuf map field `pods` (`map<string, TargetPodProto>`) is an
  insertion-ordered association list `List (String × TargetPod)`, matching
  the insertion-ordered iteration of the Python generated code.  In the
  Python protobuf API, a map field with message values behaves like a
  `defaultdict`: reading `self.pods[key]` for a missing `key` inserts and
  returns a fresh default entry.  `modifyPods` implements exactly this
  get-or-create-then-mutate access; `lookupPod` is the effect-free lookup
  used by the membership test `pod_name in self.pods` (which does *not*
  auto-create).
* Python methods that mutate `self` in place become functions returning the
  new table value; the method that can raise (`add_pod`) returns the post
  state paired with an `Except` result, and a `raise` that happens before
  any mutation returns the input state unchanged.
* Aliasing (`RoutingTable(graph, copy=False)` sharing the underlying
  protobuf object vs `copy=True` doing `CopyFrom`) is modelled by an
  explicit store of tables addressed by natural-number handles
  (`TableStore`, `initFromTable`).
* The external decoders used by `__init__` (`json_format.ParseDict`,
  `json_format.Parse`, `ParseFromString`) belong to the protobuf library,
  not to this repository; following the spec's scoping they are passed to
  `initRoutingTable` as opaque parameters that may fail.
-/

/-- Embedding of `TargetPodProto` / the `TargetPod` wrapper: a per-pod record
with address, fan-in counter and ordered out-edge list. -/
structure TargetPod where
  host : String
  port : Nat
  expected_parts : Nat
  out_edges : List String
deriving DecidableEq

/-- A freshly auto-created protobuf `TargetPodProto`: all fields at their
protobuf defaults. -/
def defaultTargetPod : TargetPod := ⟨"", 0, 0, []⟩

/-- `TargetPod.add_edge`: `self.proto.out_edges.append(to_pod)`. -/
def TargetPod.add_edge (p : TargetPod) (to_pod : String) : TargetPod :=
  { p with out_edges := p.out_edges ++ [to_pod] }

/-- Embedding of `RoutingTableProto` / the `RoutingTable` wrapper: the pod
map plus the `active_pod` cursor. -/
structure RoutingTable where
  pods : List (String × TargetPod)
  active_pod : String
deriving DecidableEq

/-- `RoutingTable()` constructed from `None`: `jina_pb2.RoutingTableProto()`
with protobuf defaults (empty map, empty string). -/
def emptyRoutingTable : RoutingTable := ⟨[], ""⟩

/-- Effect-free lookup in the pod map (first occurrence of the key), the
semantics of `pod_name in self.pods`. -/
def lookupPod : List (String × TargetPod) → String → Option TargetPod
  | [], _ => none
  | (k, v) :: rest, n => if k = n then some v else lookupPod rest n

/-- The protobuf-map access-and-mutate `self.pods[n]` followed by an in-place
update `g` of the returned entry: updates the first entry with key `n`, or
appends a fresh default entry if the key is missing (the `defaultdict`
auto-creation of Python protobuf map fields). -/
def modifyPods : List (String × TargetPod) → String → (TargetPod → TargetPod) →
    List (String × TargetPod)
  | [], n, g => [(n, g defaultTargetPod)]
  | (k, v) :: rest, n, g =>
      if k = n then (k, g v) :: rest else (k, v) :: modifyPods rest n g

/-- The key list of the pod map, in insertion order (what `for pod in
self.pods` iterates over). -/
def RoutingTable.keys (t : RoutingTable) : List String :=
  t.pods.map Prod.fst

/-- The value read by `self.pods[n]`: the stored entry, or the fresh default
entry that protobuf auto-creation would return for a missing key. -/
def RoutingTable.getPodD (t : RoutingTable) (n : String) : TargetPod :=
  (lookupPod t.pods n).getD defaultTargetPod

/-- Apply `g` in place to the entry `self.pods[n]` (get-or-create). -/
def RoutingTable.modifyPod (t : RoutingTable) (n : String) (g : TargetPod → TargetPod) :
    RoutingTable :=
  { t with pods := modifyPods t.pods n g }

/-- The table-state effect of a bare read `self.pods[n]`: get-or-create the
entry without changing its value. -/
def RoutingTable.ensurePod (t : RoutingTable) (n : String) : RoutingTable :=
  t.modifyPod n id

/-- `RoutingTable._get_out_edges(pod)` =
`TargetPod(self.pods[pod]).out_edges`: the out-edge list of the entry, `[]`
for a missing (would-be auto-created) entry.  The auto-creation side effect
on the table is not needed by the value and is modelled separately
(`ensurePod`) where it is observable. -/
def RoutingTable.outEdgesOf (t : RoutingTable) (pod : String) : List String :=
  (t.getPodD pod).out_edges

/-- The edge relation of the table: `b` appears among `a`'s out-edges. -/
def RoutingTable.isEdge (t : RoutingTable) (a b : String) : Prop :=
  b ∈ t.outEdgesOf a

instance (t : RoutingTable) (a b : String) : Decidable (t.isEdge a b) :=
  inferInstanceAs (Decidable (b ∈ t.outEdgesOf a))

/-- `RoutingTable.add_edge(from_pod, to_pod)`: first
`self._get_target_pod(from_pod).add_edge(to_pod)` (get-or-create `from_pod`,
append), then `self._get_target_pod(to_pod).expected_parts += 1`
(get-or-create `to_pod`, increment). -/
def RoutingTable.add_edge (t : RoutingTable) (from_pod to_pod : String) : RoutingTable :=
  let t1 := t.modifyPod from_pod (fun p => p.add_edge to_pod)
  t1.modifyPod to_pod (fun p => { p with expected_parts := p.expected_parts + 1 })

/-- The `ValueError` raised by `RoutingTable.add_pod` on a duplicate name
(`Vertex with name {pod_name} already exists. ...`); the payload records the
offending name. -/
inductive TableError where
  | valueError (pod_name : String)
deriving DecidableEq

/-- `RoutingTable.add_pod(pod_name, host, port)`: raises `ValueError` if
`pod_name in self.pods` (before any mutation, so the raising branch returns
the table unchanged); otherwise get-or-creates the slot and assigns `host`
and `port`.  Result: post state paired with the raised-or-ok outcome. -/
def RoutingTable.add_pod (t : RoutingTable) (pod_name host : String) (port : Nat) :
    RoutingTable × Except TableError Unit :=
  if pod_name ∈ t.keys then
    (t, Except.error (TableError.valueError pod_name))
  else
    (t.modifyPod pod_name (fun p => { p with host := host, port := port }), Except.ok ())

/-- `RoutingTable.active_target_pod`: `TargetPod(self.pods[self.active_pod])`.
The protobuf map access get-or-creates the entry, so the result is the
(possibly fresh default) descriptor paired with the table after the access. -/
def RoutingTable.active_target_pod (t : RoutingTable) : TargetPod × RoutingTable :=
  let t1 := t.ensurePod t.active_pod
  (t1.getPodD t.active_pod, t1)

/-- `RoutingTable.get_next_targets()`: for each name in
`self._get_out_edges(self.active_pod)` (an access that get-or-creates the
active entry), a deep copy of the current table with `active_pod` set to
that name, in list order.  Result: the snapshot list paired with the table
after the access. -/
def RoutingTable.get_next_targets (t : RoutingTable) : List RoutingTable × RoutingTable :=
  let t1 := t.ensurePod t.active_pod
  let outs := t1.outEdgesOf t.active_pod
  (outs.map (fun name => { t1 with active_pod := name }), t1)

/-- All node names that the topological sort can ever touch: the map keys
plus every name occurring in some out-edge list.  Used only to size the
recursion fuel of the DFS. -/
def RoutingTable.univNodes (t : RoutingTable) : List String :=
  t.keys ++ (t.pods.map (fun p => p.2.out_edges)).flatten

/-- `RoutingTable._topological_sort_pod(pod, visited, stack)`: mark `pod`
visited, recursively visit its unvisited out-edge targets, then append `pod`
to the stack (post-order DFS).  The state is the pair
`(visited, stack)`; `fuel` is structural-recursion fuel, always called with
more fuel than there are unvisited reachable nodes, so the `0` branch is
never taken (proved in the lemmas below). -/
def RoutingTable._topological_sort_pod (t : RoutingTable) :
    Nat → String → List String × List String → List String × List String
  | 0, _, vs => vs
  | fuel + 1, pod, vs =>
    let start : List String × List String := (pod :: vs.1, vs.2)
    let res := (t.outEdgesOf pod).foldl
      (fun acc o => if o ∈ acc.1 then acc else t._topological_sort_pod fuel o acc) start
    (res.1, res.2 ++ [pod])

/-- `RoutingTable._topological_sort()`: run the post-order DFS from every
not-yet-visited key in map (insertion) order, then reverse the stack. -/
def RoutingTable._topological_sort (t : RoutingTable) : List String :=
  let fuel := t.univNodes.length + 1
  let res := t.keys.foldl
    (fun acc pod => if pod ∈ acc.1 then acc
      else t._topological_sort_pod fuel pod acc) ([], [])
  res.2.reverse

/-- Position of a name in a list: the index of its first occurrence (for a
duplicate-free list this is exactly the `enumerate`-built
`position_lookup` of `is_acyclic`; the sort output is proved duplicate-free
below). -/
def posIdx : List String → String → Nat
  | [], _ => 0
  | y :: rest, x => if y = x then 0 else posIdx rest x + 1

/-- `RoutingTable.is_acyclic()`: compute the topological sorting, then return
`False` as soon as some node `first` has an out-edge to `second` with
`position_lookup[first] > position_lookup[second]`, and `True` otherwise.
The continue-condition `¬ (pos first > pos second)` is written as
`pos first ≤ pos second`. -/
def RoutingTable.is_acyclic (t : RoutingTable) : Bool :=
  let sorting := t._topological_sort
  sorting.all (fun first =>
    (t.outEdgesOf first).all (fun second =>
      decide (posIdx sorting first ≤ posIdx sorting second)))

/-- A table is well formed when every out-edge target is itself a key of the
pod map.  Tables built by `add_edge` always are; on ill-formed tables the
Python traversal auto-creates entries while iterating over the map, which
the pure embedding does not model. -/
def RoutingTable.wellFormed (t : RoutingTable) : Prop :=
  ∀ p ∈ t.pods, ∀ e ∈ p.2.out_edges, e ∈ t.keys

instance (t : RoutingTable) : Decidable t.wellFormed :=
  inferInstanceAs (Decidable (∀ p ∈ t.pods, ∀ e ∈ p.2.out_edges, e ∈ t.keys))

/-- Executable edge-chain test: every consecutive pair of the list is an
edge of `t` (equivalent to `List.Chain' t.isEdge`, proved below). -/
def chainEdgeB (t : RoutingTable) : List String → Bool
  | [] => true
  | [_] => true
  | a :: b :: rest => decide (t.isEdge a b) && chainEdgeB t (b :: rest)

/-- A directed cycle of the edge relation: a nonempty node list each of whose
consecutive pairs is an edge, closed by an edge from the last node back to
the first. -/
def RoutingTable.isCycle (t : RoutingTable) (c : List String) : Prop :=
  c ≠ [] ∧ chainEdgeB t (c ++ [c.headI]) = true

instance (t : RoutingTable) (c : List String) : Decidable (t.isCycle c) :=
  inferInstanceAs (Decidable (c ≠ [] ∧ chainEdgeB t (c ++ [c.headI]) = true))

/-- The node of a cycle list at index `i`, reading the list cyclically. -/
def nthNode (c : List String) (i : Nat) : String :=
  c.getD (i % c.length) ""

/-- Number of names of `univNodes` not yet visited: the termination measure
of the DFS, used to discharge the fuel bound. -/
def RoutingTable.remCount (t : RoutingTable) (v : List String) : Nat :=
  (t.univNodes.filter (fun x => decide (x ∉ v))).length

/-- Replay a sequence of `add_edge` calls (`(from_pod, to_pod)` pairs) on a
table, in order. -/
def applyEdges (t : RoutingTable) (es : List (String × String)) : RoutingTable :=
  es.foldl (fun a e => a.add_edge e.1 e.2) t

/-- A store of routing tables addressed by handles: models which
`RoutingTable` wrappers share one underlying protobuf object. -/
abbrev TableStore := List RoutingTable

/-- Dereference a handle. -/
def readTable (s : TableStore) (h : Nat) : RoutingTable :=
  (List.get? s h).getD emptyRoutingTable

/-- Mutate the cell a handle points at. -/
def writeTable (s : TableStore) (h : Nat) (d : RoutingTable) : TableStore :=
  List.set s h d

/-- `RoutingTable(graph, copy)` for `graph` an existing table: with
`copy=True`, `CopyFrom` into a fresh cell (new handle); with `copy=False`,
share the underlying cell (same handle). -/
def initFromTable (s : TableStore) (src : Nat) (copy : Bool) : TableStore × Nat :=
  if copy then (s ++ [readTable s src], s.length) else (s, src)

/-- The table mutations named by the copy-isolation property: assigning
`active_pod`, `add_edge`, `add_pod`. -/
inductive TableMutation where
  | setActivePod (n : String)
  | addEdgeMut (from_pod to_pod : String)
  | addPodMut (pod_name host : String) (port : Nat)
deriving DecidableEq

/-- Run one mutation through a handle, in place on the store. -/
def applyMutation (s : TableStore) (h : Nat) : TableMutation → TableStore
  | TableMutation.setActivePod n => writeTable s h { readTable s h with active_pod := n }
  | TableMutation.addEdgeMut f t2 => writeTable s h ((readTable s h).add_edge f t2)
  | TableMutation.addPodMut n ho p => writeTable s h ((readTable s h).add_pod n ho p).1

/-- Python exceptions relevant to `RoutingTable.__init__`: raw decoder
errors, the `ValueError('... is not recognizable')` for unsupported input
types (payload: the offending type's name), and `BadRequestType` which is
raised `from ex` and therefore wraps an underlying cause. -/
inductive PyException where
  | decodeError (msg : String)
  | valueError (tyname : String)
  | badRequestType (cause : PyException)
deriving DecidableEq

/-- The input shapes `RoutingTable.__init__` dispatches on: another
`RoutingTable`, a `RoutingTableProto`, a dict, a str, bytes, `None`, or any
other Python value (identified only by its type name). -/
inductive GraphInput where
  | fromTable (t : RoutingTable)
  | fromProto (p : RoutingTable)
  | fromDict (d : List (String × String))
  | fromString (s : String)
  | fromBytes (b : List Nat)
  | fromNone
  | other (tyname : String)

/-- `RoutingTable.__init__(graph, copy)` (value level).  The three decoders
are external protobuf-library collaborators, passed as fallible parameters.
The whole dispatch sits in one `try`, so every failure — a decoder error or
the `ValueError` for an unrecognized type — is re-raised as
`BadRequestType(...) from ex`, wrapping the cause; `None` yields the empty
proto.  The `copy` flag selects sharing vs `CopyFrom` for the two in-memory
branches, which does not affect the resulting table value (aliasing is
modelled by `initFromTable`). -/
def initRoutingTable
    (parseDict : List (String × String) → Except PyException RoutingTable)
    (parse : String → Except PyException RoutingTable)
    (parseBytes : List Nat → Except PyException RoutingTable)
    (copy : Bool) (graph : GraphInput) : Except PyException RoutingTable :=
  match graph with
  | GraphInput.fromTable t => Except.ok t
  | GraphInput.fromProto p => Except.ok p
  | GraphInput.fromDict d =>
      match parseDict d with
      | Except.ok t => Except.ok t
      | Except.error e => Except.error (PyException.badRequestType e)
  | GraphInput.fromString s =>
      match parse s with
      | Except.ok t => Except.ok t
      | Except.error e => Except.error (PyException.badRequestType e)
  | GraphInput.fromBytes b =>
      match parseBytes b with
      | Except.ok t => Except.ok t
      | Except.error e => Except.error (PyException.badRequestType e)
  | GraphInput.fromNone => Except.ok emptyRoutingTable
  | GraphInput.other tyname =>
      Except.error (PyException.badRequestType (PyException.valueError tyname))

/-! ## Lemmas about the pod map -/

theorem lookupPod_eq_none (l : List (String × TargetPod)) (n : String) :
    lookupPod l n = none ↔ n ∉ l.map Prod.fst := by
  induction l with
  | nil => simp [lookupPod]
  | cons p rest ih =>
    obtain ⟨k, v⟩ := p
    by_cases h : k = n
    · subst h
      simp [lookupPod]
    · have hnk : ¬ n = k := fun he => h he.symm
      simp [lookupPod, h, hnk, ih]

theorem lookupPod_mem (l : List (String × TargetPod)) (n : String) (p : TargetPod)
    (h : lookupPod l n = some p) : (n, p) ∈ l := by
  induction l with
  | nil => simp [lookupPod] at h
  | cons q rest ih =>
    obtain ⟨k, v⟩ := q
    by_cases hk : k = n
    · subst hk
      simp [lookupPod] at h
      simp [h]
    · simp [lookupPod, hk] at h
      simp [ih h]

theorem lookupPod_modifyPods (l : List (String × TargetPod)) (n m : String)
    (g : TargetPod → TargetPod) :
    lookupPod (modifyPods l n g) m =
      if n = m then some (g ((lookupPod l n).getD defaultTargetPod))
      else lookupPod l m := by
  induction l with
  | nil =>
    by_cases h : n = m <;> simp [lookupPod, modifyPods, h]
  | cons q rest ih =>
    obtain ⟨k, v⟩ := q
    by_cases hkn : k = n
    · subst hkn
      by_cases hkm : k = m <;> simp [lookupPod, modifyPods, hkm]
    · by_cases hkm : k = m
      · subst hkm
        have hnm : ¬ n = k := fun he => hkn he.symm
        simp [lookupPod, modifyPods, hkn, hnm]
      · simp [lookupPod, modifyPods, hkn, hkm, ih]

theorem keys_modifyPods (l : List (String × TargetPod)) (n : String)
    (g : TargetPod → TargetPod) :
    (modifyPods l n g).map Prod.fst =
      if n ∈ l.map Prod.fst then l.map Prod.fst else l.map Prod.fst ++ [n] := by
  induction l with
  | nil => simp [modifyPods]
  | cons q rest ih =>
    obtain ⟨k, v⟩ := q
    by_cases hkn : k = n
    · subst hkn
      simp [modifyPods]
    · by_cases hn : n ∈ rest.map Prod.fst <;>
        simp [modifyPods, hkn, Ne.symm hkn, hn, ih]

theorem modifyPods_of_not_mem (l : List (String × TargetPod)) (n : String)
    (g : TargetPod → TargetPod) (h : n ∉ l.map Prod.fst) :
    modifyPods l n g = l ++ [(n, g defaultTargetPod)] := by
  induction l with
  | nil => simp [modifyPods]
  | cons q rest ih =>
    obtain ⟨k, v⟩ := q
    have h1 : ¬ k = n := fun he => h (by simp [he])
    have h2 : n ∉ rest.map Prod.fst := fun he => h (by simp [he])
    simp [modifyPods, h1, ih h2]

theorem modifyPods_id_of_mem (l : List (String × TargetPod)) (n : String)
    (h : n ∈ l.map Prod.fst) : modifyPods l n id = l := by
  induction l with
  | nil => simp at h
  | cons q rest ih =>
    obtain ⟨k, v⟩ := q
    by_cases hkn : k = n
    · simp [modifyPods, hkn]
    · have h4 : n = k ∨ n ∈ rest.map Prod.fst := by simpa using h
      have h2 : n ∈ rest.map Prod.fst := by
        rcases h4 with h3 | h3
        · exact absurd h3.symm hkn
        · exact h3
      simp [modifyPods, hkn, ih h2]

theorem getPodD_modifyPod (t : RoutingTable) (k m : String) (g : TargetPod → TargetPod) :
    (t.modifyPod k g).getPodD m =
      if k = m then g (t.getPodD k) else t.getPodD m := by
  by_cases h : k = m <;>
    simp [RoutingTable.getPodD, RoutingTable.modifyPod, lookupPod_modifyPods, h]

theorem keys_modifyPod (t : RoutingTable) (k : String) (g : TargetPod → TargetPod) :
    (t.modifyPod k g).keys = if k ∈ t.keys then t.keys else t.keys ++ [k] :=
  keys_modifyPods t.pods k g

theorem mem_keys_modifyPod (t : RoutingTable) (k m : String) (g : TargetPod → TargetPod) :
    m ∈ (t.modifyPod k g).keys ↔ m ∈ t.keys ∨ m = k := by
  rw [keys_modifyPod]
  by_cases h : k ∈ t.keys
  · rw [if_pos h]
    constructor
    · exact Or.inl
    · rintro (hm | rfl)
      · exact hm
      · exact h
  · rw [if_neg h]
    simp

theorem ensurePod_of_mem (t : RoutingTable) (k : String) (h : k ∈ t.keys) :
    t.ensurePod k = t := by
  have h2 := modifyPods_id_of_mem t.pods k h
  simp [RoutingTable.ensurePod, RoutingTable.modifyPod, h2]

theorem getPodD_ensurePod (t : RoutingTable) (k m : String) :
    (t.ensurePod k).getPodD m = t.getPodD m := by
  rw [RoutingTable.ensurePod, getPodD_modifyPod]
  by_cases h : k = m <;> simp [h]

/-! ## Effect of `add_edge` on observable fields -/

theorem expected_parts_modify_addE (t : RoutingTable) (f tp m : String) :
    ((t.modifyPod f (fun p => p.add_edge tp)).getPodD m).expected_parts =
      (t.getPodD m).expected_parts := by
  rw [getPodD_modifyPod]
  by_cases h : f = m
  · simp [h, TargetPod.add_edge]
  · simp [h]

theorem out_edges_modify_incr (t : RoutingTable) (tp m : String) :
    ((t.modifyPod tp
        (fun p => { p with expected_parts := p.expected_parts + 1 })).getPodD m).out_edges =
      (t.getPodD m).out_edges := by
  rw [getPodD_modifyPod]
  by_cases h : tp = m
  · simp [h]
  · simp [h]

theorem expected_parts_add_edge (t : RoutingTable) (f tp m : String) :
    ((t.add_edge f tp).getPodD m).expected_parts =
      (t.getPodD m).expected_parts + (if tp = m then 1 else 0) := by
  rw [RoutingTable.add_edge, getPodD_modifyPod]
  by_cases h2 : tp = m <;>
    simp [h2, expected_parts_modify_addE]

theorem out_edges_add_edge (t : RoutingTable) (f tp m : String) :
    ((t.add_edge f tp).getPodD m).out_edges =
      (t.getPodD m).out_edges ++ (if f = m then [tp] else []) := by
  rw [RoutingTable.add_edge, out_edges_modify_incr, getPodD_modifyPod]
  by_cases h1 : f = m <;> simp [h1, TargetPod.add_edge]

theorem outEdgesOf_add_edge (t : RoutingTable) (f tp m : String) :
    (t.add_edge f tp).outEdgesOf m =
      t.outEdgesOf m ++ (if f = m then [tp] else []) :=
  out_edges_add_edge t f tp m

theorem mem_keys_add_edge (t : RoutingTable) (f tp m : String) :
    m ∈ (t.add_edge f tp).keys ↔ m ∈ t.keys ∨ m = f ∨ m = tp := by
  rw [RoutingTable.add_edge]
  rw [mem_keys_modifyPod, mem_keys_modifyPod]
  tauto

/-! ## Replaying `add_edge` sequences (fan-in counting, edge ordering) -/

theorem expected_parts_applyEdges (es : List (String × String)) (t : RoutingTable)
    (n : String) :
    ((applyEdges t es).getPodD n).expected_parts =
      (t.getPodD n).expected_parts + (es.filter (fun e => decide (e.2 = n))).length := by
  induction es generalizing t with
  | nil => simp [applyEdges]
  | cons e rest ih =>
    have step : applyEdges t (e :: rest) = applyEdges (t.add_edge e.1 e.2) rest := by
      simp [applyEdges]
    rw [step, ih, expected_parts_add_edge]
    by_cases h : e.2 = n <;> simp [List.filter_cons, h] <;> omega

theorem out_edges_applyEdges (es : List (String × String)) (t : RoutingTable)
    (n : String) :
    (applyEdges t es).outEdgesOf n =
      t.outEdgesOf n ++ (es.filter (fun e => decide (e.1 = n))).map Prod.snd := by
  induction es generalizing t with
  | nil => simp [applyEdges]
  | cons e rest ih =>
    have step : applyEdges t (e :: rest) = applyEdges (t.add_edge e.1 e.2) rest := by
      simp [applyEdges]
    rw [step, ih, outEdgesOf_add_edge]
    by_cases h : e.1 = n <;> simp [List.filter_cons, h]

theorem getPodD_empty (n : String) : emptyRoutingTable.getPodD n = defaultTargetPod := by
  simp [RoutingTable.getPodD, emptyRoutingTable, lookupPod]

/-! ## Termination measure of the DFS -/

theorem filter_length_le_of_imp {p q : String → Bool}
    (h : ∀ x, p x = true → q x = true) :
    ∀ U : List String, (U.filter p).length ≤ (U.filter q).length := by
  intro U
  induction U with
  | nil => simp
  | cons b U ih =>
    rw [List.filter_cons, List.filter_cons]
    cases hpb : p b
    · cases hqb : q b <;> simp <;> omega
    · rw [h b hpb]
      simpa using ih

theorem filter_length_lt_of_imp {a : String} {p q : String → Bool}
    (himp : ∀ x, p x = true → q x = true) (hpa : p a = false) (hqa : q a = true) :
    ∀ U : List String, a ∈ U → (U.filter p).length < (U.filter q).length := by
  intro U
  induction U with
  | nil => simp
  | cons b U ih =>
    intro hmem
    rw [List.filter_cons, List.filter_cons]
    rcases List.mem_cons.mp hmem with h | h
    · subst h
      rw [hpa, hqa]
      have := filter_length_le_of_imp himp U
      simp
      omega
    · cases hpb : p b
      · cases hqb : q b
        · simpa using ih h
        · have := ih h
          simp
          omega
      · rw [himp b hpb]
        have := ih h
        simp
        omega

theorem remCount_mono (t : RoutingTable) {v w : List String}
    (h : ∀ x ∈ v, x ∈ w) : t.remCount w ≤ t.remCount v := by
  apply filter_length_le_of_imp
  intro x hx
  simp only [decide_eq_true_eq] at hx ⊢
  exact fun hxv => hx (h x hxv)

theorem remCount_cons_lt (t : RoutingTable) {pod : String} {v : List String}
    (hu : pod ∈ t.univNodes) (hv : pod ∉ v) :
    t.remCount (pod :: v) < t.remCount v := by
  apply filter_length_lt_of_imp (a := pod) _ _ _ _ hu
  · intro x hx
    simp only [decide_eq_true_eq, List.mem_cons] at hx ⊢
    exact fun hxv => hx (Or.inr hxv)
  · simp
  · simpa using hv

theorem remCount_le_len (t : RoutingTable) (v : List String) :
    t.remCount v ≤ t.univNodes.length :=
  List.length_filter_le _ _

/-! ## Specification of the post-order DFS -/

theorem dfs_pod_spec (t : RoutingTable) :
    ∀ fuel pod vs, pod ∈ t.univNodes → pod ∉ vs.1 → t.remCount vs.1 < fuel →
      ∃ Δ, (t._topological_sort_pod fuel pod vs).2 = vs.2 ++ Δ ∧
        Δ.Nodup ∧ (∀ x ∈ Δ, x ∉ vs.1) ∧ pod ∈ Δ ∧
        (∀ x, x ∈ (t._topological_sort_pod fuel pod vs).1 ↔ (x ∈ vs.1 ∨ x ∈ Δ)) := by
  intro fuel
  induction fuel with
  | zero =>
    intro pod vs _ _ hlt
    exact absurd hlt (Nat.not_lt_zero _)
  | succ f ih =>
    have fold : ∀ (outs : List String) (vs : List String × List String),
        (∀ o ∈ outs, o ∈ t.univNodes) → t.remCount vs.1 < f →
        ∃ Δ, (outs.foldl (fun acc o => if o ∈ acc.1 then acc
                else t._topological_sort_pod f o acc) vs).2 = vs.2 ++ Δ ∧
          Δ.Nodup ∧ (∀ x ∈ Δ, x ∉ vs.1) ∧
          (∀ x, x ∈ (outs.foldl (fun acc o => if o ∈ acc.1 then acc
                else t._topological_sort_pod f o acc) vs).1 ↔ (x ∈ vs.1 ∨ x ∈ Δ)) := by
      intro outs
      induction outs with
      | nil =>
        intro vs _ _
        exact ⟨[], by simp, List.nodup_nil, by simp, fun x => by simp⟩
      | cons o rest ihl =>
        intro vs hsub hlt
        rw [List.foldl_cons]
        by_cases ho : o ∈ vs.1
        · rw [if_pos ho]
          exact ihl vs (fun o2 h2 => hsub o2 (List.mem_cons_of_mem _ h2)) hlt
        · rw [if_neg ho]
          obtain ⟨Δ1, hs1, hnd1, hnv1, hmem1, hv1⟩ :=
            ih o vs (hsub o (List.mem_cons_self o rest)) ho hlt
          have hsub1 : ∀ x ∈ vs.1, x ∈ (t._topological_sort_pod f o vs).1 :=
            fun x hx => (hv1 x).mpr (Or.inl hx)
          have hlt1 : t.remCount (t._topological_sort_pod f o vs).1 < f :=
            lt_of_le_of_lt (remCount_mono t hsub1) hlt
          obtain ⟨Δ2, hs2, hnd2, hnv2, hv2⟩ :=
            ihl (t._topological_sort_pod f o vs)
              (fun o2 h2 => hsub o2 (List.mem_cons_of_mem _ h2)) hlt1
          refine ⟨Δ1 ++ Δ2, ?_, ?_, ?_, ?_⟩
          · rw [hs2, hs1, List.append_assoc]
          · rw [List.nodup_append]
            refine ⟨hnd1, hnd2, ?_⟩
            intro x hx1 hx2
            exact hnv2 x hx2 ((hv1 x).mpr (Or.inr hx1))
          · intro x hx
            rcases List.mem_append.mp hx with h | h
            · exact hnv1 x h
            · exact fun hxv => hnv2 x h ((hv1 x).mpr (Or.inl hxv))
          · intro x
            rw [hv2 x, hv1 x, List.mem_append]
            tauto
    intro pod vs hu hv hlt
    show ∃ Δ, (t._topological_sort_pod (f + 1) pod vs).2 = vs.2 ++ Δ ∧ _
    rw [RoutingTable._topological_sort_pod]
    have hlt1 : t.remCount (pod :: vs.1) < f :=
      lt_of_lt_of_le (remCount_cons_lt t hu hv) (Nat.lt_succ_iff.mp hlt)
    have hsub : ∀ o ∈ t.outEdgesOf pod, o ∈ t.univNodes := by
      intro o ho
      rcases h2 : lookupPod t.pods pod with _ | p
      · rw [RoutingTable.outEdgesOf, RoutingTable.getPodD, h2] at ho
        simp [defaultTargetPod] at ho
      · rw [RoutingTable.outEdgesOf, RoutingTable.getPodD, h2] at ho
        simp only [Option.getD_some] at ho
        have hmem := lookupPod_mem t.pods pod p h2
        rw [RoutingTable.univNodes, List.mem_append]
        right
        rw [List.mem_flatten]
        exact ⟨p.out_edges, List.mem_map.mpr ⟨(pod, p), hmem, rfl⟩, ho⟩
    obtain ⟨Δ1, hs1, hnd1, hnv1, hv1⟩ :=
      fold (t.outEdgesOf pod) (pod :: vs.1, vs.2) hsub hlt1
    refine ⟨Δ1 ++ [pod], ?_, ?_, ?_, ?_, ?_⟩
    · rw [hs1]
      simp [List.append_assoc]
    · rw [List.nodup_append]
      refine ⟨hnd1, List.nodup_singleton pod, ?_⟩
      intro x hx1 hx2
      rw [List.mem_singleton] at hx2
      subst hx2
      exact hnv1 x hx1 (List.mem_cons_self _ _)
    · intro x hx
      rcases List.mem_append.mp hx with h | h
      · exact fun hxv => hnv1 x h (List.mem_cons_of_mem _ hxv)
      · rw [List.mem_singleton] at h
        subst h
        exact hv
    · exact List.mem_append.mpr (Or.inr (List.mem_singleton.mpr rfl))
    · intro x
      rw [hv1 x, List.mem_cons, List.mem_append, List.mem_singleton]
      tauto

/-! ## Specification of `_topological_sort` -/

theorem sort_fold_spec (t : RoutingTable) :
    ∀ (ks : List String) (vs : List String × List String),
      (∀ k ∈ ks, k ∈ t.univNodes) →
      (∀ x, x ∈ vs.1 ↔ x ∈ vs.2) → vs.2.Nodup →
      (∀ x, x ∈ (ks.foldl (fun acc pod => if pod ∈ acc.1 then acc
          else t._topological_sort_pod (t.univNodes.length + 1) pod acc) vs).1 ↔
        x ∈ (ks.foldl (fun acc pod => if pod ∈ acc.1 then acc
          else t._topological_sort_pod (t.univNodes.length + 1) pod acc) vs).2) ∧
      (ks.foldl (fun acc pod => if pod ∈ acc.1 then acc
          else t._topological_sort_pod (t.univNodes.length + 1) pod acc) vs).2.Nodup ∧
      (∀ k ∈ ks, k ∈ (ks.foldl (fun acc pod => if pod ∈ acc.1 then acc
          else t._topological_sort_pod (t.univNodes.length + 1) pod acc) vs).2) ∧
      (∀ x ∈ vs.2, x ∈ (ks.foldl (fun acc pod => if pod ∈ acc.1 then acc
          else t._topological_sort_pod (t.univNodes.length + 1) pod acc) vs).2) := by
  intro ks
  induction ks with
  | nil =>
    intro vs _ hinv hnd
    exact ⟨hinv, hnd, by simp, fun x hx => hx⟩
  | cons k ks ihl =>
    intro vs hsub hinv hnd
    rw [List.foldl_cons]
    by_cases hk : k ∈ vs.1
    · rw [if_pos hk]
      obtain ⟨o1, o2, o3, o4⟩ :=
        ihl vs (fun k2 h2 => hsub k2 (List.mem_cons_of_mem _ h2)) hinv hnd
      refine ⟨o1, o2, ?_, o4⟩
      intro k2 hk2
      rcases List.mem_cons.mp hk2 with h | h
      · subst h
        exact o4 k2 ((hinv k2).mp hk)
      · exact o3 k2 h
    · rw [if_neg hk]
      obtain ⟨Δ, hs1, hnd1, hnv1, hmem1, hv1⟩ :=
        dfs_pod_spec t (t.univNodes.length + 1) k vs
          (hsub k (List.mem_cons_self k ks)) hk
          (Nat.lt_succ_of_le (remCount_le_len t vs.1))
      have hinv1 : ∀ x, x ∈ (t._topological_sort_pod (t.univNodes.length + 1) k vs).1 ↔
          x ∈ (t._topological_sort_pod (t.univNodes.length + 1) k vs).2 := by
        intro x
        rw [hv1 x, hs1, List.mem_append, hinv x]
      have hnd2 : (t._topological_sort_pod (t.univNodes.length + 1) k vs).2.Nodup := by
        rw [hs1, List.nodup_append]
        refine ⟨hnd, hnd1, ?_⟩
        intro x hx1 hx2
        exact hnv1 x hx2 ((hinv x).mpr hx1)
      obtain ⟨o1, o2, o3, o4⟩ :=
        ihl (t._topological_sort_pod (t.univNodes.length + 1) k vs)
          (fun k2 h2 => hsub k2 (List.mem_cons_of_mem _ h2)) hinv1 hnd2
      refine ⟨o1, o2, ?_, ?_⟩
      · intro k2 hk2
        rcases List.mem_cons.mp hk2 with h | h
        · subst h
          exact o4 k2 (by rw [hs1]; exact List.mem_append.mpr (Or.inr hmem1))
        · exact o3 k2 h
      · intro x hx
        exact o4 x (by rw [hs1]; exact List.mem_append.mpr (Or.inl hx))

theorem topological_sort_nodup (t : RoutingTable) : t._topological_sort.Nodup := by
  rw [RoutingTable._topological_sort]
  simp only [List.nodup_reverse]
  exact (sort_fold_spec t t.keys ([], [])
    (fun k hk => List.mem_append.mpr (Or.inl hk))
    (fun x => by simp) List.nodup_nil).2.1

theorem mem_topological_sort (t : RoutingTable) (k : String) (hk : k ∈ t.keys) :
    k ∈ t._topological_sort := by
  rw [RoutingTable._topological_sort]
  simp only [List.mem_reverse]
  exact (sort_fold_spec t t.keys ([], [])
    (fun k2 hk2 => List.mem_append.mpr (Or.inl hk2))
    (fun x => by simp) List.nodup_nil).2.2.1 k hk

/-! ## Positions in the sorting -/

theorem posIdx_inj {l : List String} (hl : l.Nodup) {a b : String}
    (ha : a ∈ l) (hb : b ∈ l) (h : posIdx l a = posIdx l b) : a = b := by
  induction l with
  | nil => cases ha
  | cons y rest ih =>
    by_cases hya : y = a <;> by_cases hyb : y = b
    · rw [← hya, ← hyb]
    · rw [posIdx, posIdx, if_pos hya, if_neg hyb] at h
      exact absurd h (by omega)
    · rw [posIdx, posIdx, if_neg hya, if_pos hyb] at h
      exact absurd h (by omega)
    · rw [posIdx, posIdx, if_neg hya, if_neg hyb] at h
      have ha2 : a ∈ rest := by
        rcases List.mem_cons.mp ha with h2 | h2
        · exact absurd h2.symm hya
        · exact h2
      have hb2 : b ∈ rest := by
        rcases List.mem_cons.mp hb with h2 | h2
        · exact absurd h2.symm hyb
        · exact h2
      exact ih (List.Nodup.of_cons hl) ha2 hb2 (by omega)

theorem is_acyclic_eq_true_iff (t : RoutingTable) :
    t.is_acyclic = true ↔
      ∀ first ∈ t._topological_sort, ∀ second ∈ t.outEdgesOf first,
        posIdx t._topological_sort first ≤ posIdx t._topological_sort second := by
  rw [RoutingTable.is_acyclic]
  simp [List.all_eq_true]

/-! ## Cycles force a position inversion -/

theorem chainEdgeB_getD (t : RoutingTable) :
    ∀ l : List String, chainEdgeB t l = true →
      ∀ i, i + 1 < l.length → t.isEdge (l.getD i "") (l.getD (i + 1) "") := by
  intro l
  induction l with
  | nil =>
    intro _ i hi
    simp at hi
  | cons a rest ih =>
    intro hc i hi
    cases rest with
    | nil => simp at hi
    | cons b rest2 =>
      rw [chainEdgeB, Bool.and_eq_true, decide_eq_true_eq] at hc
      cases i with
      | zero => simpa using hc.1
      | succ j =>
        have hj : j + 1 < (b :: rest2).length := by
          simpa using hi
        simpa using ih hc.2 j hj

theorem getD_concat_length (l : List String) (x : String) (d : String) :
    (l ++ [x]).getD l.length d = x := by
  induction l with
  | nil => simp
  | cons a rest ih => simpa using ih

theorem headI_eq_getD_zero (c : List String) (h : c ≠ []) :
    c.headI = c.getD 0 "" := by
  cases c with
  | nil => exact absurd rfl h
  | cons a rest => rfl

theorem isCycle_step (t : RoutingTable) (c : List String) (h : t.isCycle c) :
    ∀ i, t.isEdge (nthNode c i) (nthNode c (i + 1)) := by
  obtain ⟨hne, hchain⟩ := h
  have hlen : 0 < c.length := List.length_pos.mpr hne
  intro i
  have hj : i % c.length < c.length := Nat.mod_lt _ hlen
  by_cases hj1 : i % c.length + 1 < c.length
  · have hstep := chainEdgeB_getD t (c ++ [c.headI]) hchain (i % c.length)
      (by simp only [List.length_append, List.length_singleton]; omega)
    rw [List.getD_append _ _ _ _ hj, List.getD_append _ _ _ _ hj1] at hstep
    have hmod : (i + 1) % c.length = i % c.length + 1 := by
      have h1L : 1 % c.length = 1 := Nat.mod_eq_of_lt (by omega)
      rw [Nat.add_mod, h1L]
      exact Nat.mod_eq_of_lt hj1
    rw [nthNode, nthNode, hmod]
    exact hstep
  · have hL : i % c.length + 1 = c.length := by omega
    have hstep := chainEdgeB_getD t (c ++ [c.headI]) hchain (i % c.length)
      (by simp only [List.length_append, List.length_singleton]; omega)
    rw [List.getD_append _ _ _ _ hj] at hstep
    rw [hL, getD_concat_length, headI_eq_getD_zero c hne] at hstep
    have hmod : (i + 1) % c.length = 0 := by
      by_cases hone : c.length = 1
      · simp [hone, Nat.mod_one]
      · have h1L : 1 % c.length = 1 := Nat.mod_eq_of_lt (by omega)
        rw [Nat.add_mod, h1L, hL, Nat.mod_self]
    rw [nthNode, nthNode, hmod]
    exact hstep

theorem nthNode_mem_keys (t : RoutingTable) (c : List String) (h : t.isCycle c)
    (i : Nat) : nthNode c i ∈ t.keys := by
  have hstep := isCycle_step t c h i
  rw [RoutingTable.isEdge] at hstep
  rcases h2 : lookupPod t.pods (nthNode c i) with _ | p
  · rw [RoutingTable.outEdgesOf, RoutingTable.getPodD, h2] at hstep
    simp [defaultTargetPod] at hstep
  · have hmem := lookupPod_mem _ _ _ h2
    exact List.mem_map.mpr ⟨_, hmem, rfl⟩

theorem mem_eq_nthNode {c : List String} {x : String} (hx : x ∈ c) :
    ∃ i, i < c.length ∧ nthNode c i = x := by
  obtain ⟨⟨i, hi⟩, hg⟩ := List.mem_iff_get.mp hx
  refine ⟨i, hi, ?_⟩
  rw [nthNode, Nat.mod_eq_of_lt hi, List.getD_eq_get c "" hi]
  exact hg

theorem nthNode_add_length (c : List String) (i : Nat) :
    nthNode c (c.length + i) = nthNode c i := by
  simp [nthNode, Nat.add_mod_left]

theorem pos_le_of_cycle (t : RoutingTable) (c : List String) (h : t.isCycle c)
    (H : ∀ first ∈ t._topological_sort, ∀ second ∈ t.outEdgesOf first,
      posIdx t._topological_sort first ≤ posIdx t._topological_sort second) :
    ∀ i d, posIdx t._topological_sort (nthNode c i) ≤
      posIdx t._topological_sort (nthNode c (i + d)) := by
  intro i d
  induction d with
  | zero => exact le_refl _
  | succ e ihd =>
    refine le_trans ihd ?_
    have hstep := isCycle_step t c h (i + e)
    have hmem : nthNode c (i + e) ∈ t._topological_sort :=
      mem_topological_sort _ _ (nthNode_mem_keys t c h (i + e))
    exact H _ hmem _ hstep

/-! ## Store lemmas (aliasing vs copying) -/

theorem get_set_ne_q {α : Type} :
    ∀ (l : List α) (i j : Nat), i ≠ j → ∀ d : α, (l.set i d).get? j = l.get? j := by
  intro l
  induction l with
  | nil =>
    intro i j _ d
    simp
  | cons a rest ih =>
    intro i j hij d
    cases i with
    | zero =>
      cases j with
      | zero => exact absurd rfl hij
      | succ j2 => simp [List.set]
    | succ i2 =>
      cases j with
      | zero => simp [List.set]
      | succ j2 =>
        simp only [List.set, List.get?]
        exact ih i2 j2 (fun h => hij (by rw [h])) d

theorem readTable_write_ne (s : TableStore) (h1 h2 : Nat) (d : RoutingTable)
    (hne : h1 ≠ h2) : readTable (writeTable s h1 d) h2 = readTable s h2 := by
  rw [readTable, readTable, writeTable, get_set_ne_q s h1 h2 hne d]

theorem readTable_append (s : TableStore) (x : RoutingTable) (h : Nat)
    (hlt : h < s.length) : readTable (s ++ [x]) h = readTable s h := by
  rw [readTable, readTable, List.get?_append hlt]

theorem readTable_concat_self (s : TableStore) (x : RoutingTable) :
    readTable (s ++ [x]) s.length = x := by
  rw [readTable, List.get?_concat_length]
  rfl

/-! ## Claim theorems -/

/-- C1: for the table built from an empty table by `add_edge('A','B')` then
`add_edge('B','C')` (the DAG A→B→C), `is_acyclic()` returns `true`. -/
theorem claim_C1_dag_is_acyclic :
    ((emptyRoutingTable.add_edge "A" "B").add_edge "B" "C").is_acyclic = true := by
  decide

/-- C2 counterexample: the table built by `add_edge('A','A')` has a directed
cycle among its pods (the self-loop `[A]`, with every out-edge target a key),
yet `is_acyclic()` returns `true`: the position check uses the strict
comparison `position[A] > position[A]`, which a self-loop never violates.
So the claim "for every table whose edge relation contains a directed cycle
among its pods, `is_acyclic()` returns false" is false as stated. -/
theorem claim_C2_counterexample :
    (emptyRoutingTable.add_edge "A" "A").wellFormed ∧
    (emptyRoutingTable.add_edge "A" "A").isCycle ["A"] ∧
    (emptyRoutingTable.add_edge "A" "A").is_acyclic = true := by
  decide

/-- C2 (amended): for every well-formed table (every out-edge target is a key
in `pods`) whose edge relation contains a directed cycle visiting at least
two distinct nodes, `is_acyclic()` returns `false`: the visited-guarded
post-order DFS produces a duplicate-free order containing every pod, and on
such a cycle some edge must step strictly backwards in that order. -/
theorem claim_C2_cycle_detected (t : RoutingTable) (c : List String)
    (x y : String) (hwf : t.wellFormed) (hc : t.isCycle c)
    (hx : x ∈ c) (hy : y ∈ c) (hxy : x ≠ y) :
    t.is_acyclic = false := by
  cases hb : t.is_acyclic
  · rfl
  · exfalso
    have H := (is_acyclic_eq_true_iff t).mp hb
    obtain ⟨a, hal, ha⟩ := mem_eq_nthNode hx
    obtain ⟨b, hbl, hb2⟩ := mem_eq_nthNode hy
    have key : ∀ a2 b2 : Nat, a2 < c.length →
        posIdx t._topological_sort (nthNode c a2) ≤
          posIdx t._topological_sort (nthNode c b2) := by
      intro a2 b2 ha2
      have h1 := pos_le_of_cycle t c hc H a2 ((c.length - a2) + b2)
      have h2 : a2 + ((c.length - a2) + b2) = c.length + b2 := by omega
      rw [h2, nthNode_add_length] at h1
      exact h1
    have hpos : posIdx t._topological_sort x = posIdx t._topological_sort y := by
      apply le_antisymm
      · rw [← ha, ← hb2]
        exact key a b hal
      · rw [← ha, ← hb2]
        exact key b a hbl
    have hxS : x ∈ t._topological_sort := by
      rw [← ha]
      exact mem_topological_sort _ _ (nthNode_mem_keys t c hc a)
    have hyS : y ∈ t._topological_sort := by
      rw [← hb2]
      exact mem_topological_sort _ _ (nthNode_mem_keys t c hc b)
    exact hxy (posIdx_inj (topological_sort_nodup t) hxS hyS hpos)

/-- C2 witness: the amended theorem applied to the concrete two-node cycle
A→B→A. -/
theorem claim_C2_cycle_detected_witness :
    ((emptyRoutingTable.add_edge "A" "B").add_edge "B" "A").wellFormed ∧
    ((emptyRoutingTable.add_edge "A" "B").add_edge "B" "A").isCycle ["A", "B"] ∧
    ("A" : String) ∈ ["A", "B"] ∧ ("B" : String) ∈ ["A", "B"] ∧
    ("A" : String) ≠ "B" ∧
    ((emptyRoutingTable.add_edge "A" "B").add_edge "B" "A").is_acyclic = false :=
  ⟨by decide, by decide, by decide, by decide, by decide,
    claim_C2_cycle_detected ((emptyRoutingTable.add_edge "A" "B").add_edge "B" "A")
      ["A", "B"] "A" "B" (by decide) (by decide) (by decide) (by decide) (by decide)⟩

/-- C3 counterexample: on the empty table the active name `""` is not a key
in `pods`, yet reading `active_target_pod` raises no error: the protobuf map
access auto-creates a default entry, so it returns the default descriptor
and mutates the table (the name becomes a key).  So the claim "fails with a
missing-node error and does not return a descriptor or modify the table" is
false as stated. -/
theorem claim_C3_counterexample :
    emptyRoutingTable.active_pod ∉ emptyRoutingTable.keys ∧
    emptyRoutingTable.active_target_pod =
      (defaultTargetPod, RoutingTable.mk [("", defaultTargetPod)] "") := by
  decide

/-- C3 (amended): reading `active_target_pod` on a table whose `active_pod`
name is not a key in `pods` raises no error: it appends a fresh default
entry for that name to `pods` (mutating the table) and returns the default
descriptor. -/
theorem claim_C3_missing_active_creates (t : RoutingTable)
    (h : t.active_pod ∉ t.keys) :
    t.active_target_pod =
      (defaultTargetPod,
        { t with pods := t.pods ++ [(t.active_pod, defaultTargetPod)] }) := by
  have hnone : lookupPod t.pods t.active_pod = none := (lookupPod_eq_none _ _).mpr h
  have hmod := modifyPods_of_not_mem t.pods t.active_pod id h
  have e0 : (t.ensurePod t.active_pod).getPodD t.active_pod = defaultTargetPod := by
    rw [getPodD_ensurePod, RoutingTable.getPodD, hnone]
    rfl
  have e1 : t.ensurePod t.active_pod =
      { t with pods := t.pods ++ [(t.active_pod, defaultTargetPod)] } := by
    rw [RoutingTable.ensurePod, RoutingTable.modifyPod, hmod]
    rfl
  show ((t.ensurePod t.active_pod).getPodD t.active_pod, t.ensurePod t.active_pod) = _
  rw [e0, e1]

/-- C3 witness: the amended theorem applied to a one-pod table whose active
name `X` is absent. -/
theorem claim_C3_missing_active_creates_witness :
    (RoutingTable.mk [("A", defaultTargetPod)] "X").active_pod ∉
      (RoutingTable.mk [("A", defaultTargetPod)] "X").keys ∧
    (RoutingTable.mk [("A", defaultTargetPod)] "X").active_target_pod =
      (defaultTargetPod,
        RoutingTable.mk [("A", defaultTargetPod), ("X", defaultTargetPod)] "X") :=
  ⟨by decide,
    (claim_C3_missing_active_creates (RoutingTable.mk [("A", defaultTargetPod)] "X")
      (by decide)).trans (by decide)⟩

/-- C4: `add_pod` on a name already present fails with the duplicate-node
`ValueError` and leaves the table completely unchanged; in particular a
second `add_pod` with the same name fails and the node keeps the host and
port assigned by the first call. -/
theorem claim_C4_add_pod_duplicate :
    (∀ (t : RoutingTable) (n h : String) (p : Nat), n ∈ t.keys →
      t.add_pod n h p = (t, Except.error (TableError.valueError n))) ∧
    (∀ (t : RoutingTable) (n h1 : String) (p1 : Nat) (h2 : String) (p2 : Nat),
      n ∉ t.keys →
      ((t.add_pod n h1 p1).1.add_pod n h2 p2 =
        ((t.add_pod n h1 p1).1, Except.error (TableError.valueError n)) ∧
       ((t.add_pod n h1 p1).1.getPodD n).host = h1 ∧
       ((t.add_pod n h1 p1).1.getPodD n).port = p1)) := by
  constructor
  · intro t n h p hn
    rw [RoutingTable.add_pod, if_pos hn]
  · intro t n h1 p1 h2 p2 hn
    have hfst : (t.add_pod n h1 p1).1 =
        t.modifyPod n (fun p => { p with host := h1, port := p1 }) := by
      rw [RoutingTable.add_pod, if_neg hn]
    have hmem : n ∈ (t.add_pod n h1 p1).1.keys := by
      rw [hfst, mem_keys_modifyPod]
      exact Or.inr rfl
    refine ⟨?_, ?_, ?_⟩
    · rw [RoutingTable.add_pod, if_pos hmem]
    · rw [hfst, getPodD_modifyPod, if_pos rfl]
    · rw [hfst, getPodD_modifyPod, if_pos rfl]

/-- C4 witness: the second conjunct applied to the empty table at name `A`. -/
theorem claim_C4_add_pod_duplicate_witness :
    ("A" : String) ∉ emptyRoutingTable.keys ∧
    ((emptyRoutingTable.add_pod "A" "h1" 1).1.add_pod "A" "h2" 2 =
      ((emptyRoutingTable.add_pod "A" "h1" 1).1,
        Except.error (TableError.valueError "A")) ∧
     ((emptyRoutingTable.add_pod "A" "h1" 1).1.getPodD "A").host = "h1" ∧
     ((emptyRoutingTable.add_pod "A" "h1" 1).1.getPodD "A").port = 1) :=
  ⟨by decide,
    claim_C4_add_pod_duplicate.2 emptyRoutingTable "A" "h1" 1 "h2" 2 (by decide)⟩

/-- C5: on a table whose active node exists and has out-edge list `[B, C]`,
`get_next_targets()` returns exactly two snapshots, the first with
`active_pod = B` and the second with `active_pod = C`, each structurally
identical to the source except for `active_pod`, and leaves the table
unchanged; with an empty out-edge list it returns the empty list, not an
error. -/
theorem claim_C5_get_next_targets :
    (∀ (t : RoutingTable) (B C : String), t.active_pod ∈ t.keys →
      t.outEdgesOf t.active_pod = [B, C] →
      t.get_next_targets =
        ([{ t with active_pod := B }, { t with active_pod := C }], t)) ∧
    (∀ t : RoutingTable, t.active_pod ∈ t.keys →
      t.outEdgesOf t.active_pod = [] → t.get_next_targets = ([], t)) := by
  constructor
  · intro t B C hmem hout
    show (((t.ensurePod t.active_pod).outEdgesOf t.active_pod).map
      (fun name => { t.ensurePod t.active_pod with active_pod := name }),
      t.ensurePod t.active_pod) = _
    rw [ensurePod_of_mem t _ hmem, hout]
    rfl
  · intro t hmem hout
    show (((t.ensurePod t.active_pod).outEdgesOf t.active_pod).map
      (fun name => { t.ensurePod t.active_pod with active_pod := name }),
      t.ensurePod t.active_pod) = _
    rw [ensurePod_of_mem t _ hmem, hout]
    rfl

/-- C5 witness: both conjuncts at concrete tables (active node with out-edges
`[B, C]`, and active node with no out-edges). -/
theorem claim_C5_get_next_targets_witness :
    ((RoutingTable.mk [("A", TargetPod.mk "" 0 0 ["B", "C"])] "A").active_pod ∈
        (RoutingTable.mk [("A", TargetPod.mk "" 0 0 ["B", "C"])] "A").keys ∧
      (RoutingTable.mk [("A", TargetPod.mk "" 0 0 ["B", "C"])] "A").outEdgesOf
        (RoutingTable.mk [("A", TargetPod.mk "" 0 0 ["B", "C"])] "A").active_pod =
        ["B", "C"] ∧
      (RoutingTable.mk [("A", TargetPod.mk "" 0 0 ["B", "C"])] "A").get_next_targets =
        ([{ RoutingTable.mk [("A", TargetPod.mk "" 0 0 ["B", "C"])] "A" with
              active_pod := "B" },
          { RoutingTable.mk [("A", TargetPod.mk "" 0 0 ["B", "C"])] "A" with
              active_pod := "C" }],
          RoutingTable.mk [("A", TargetPod.mk "" 0 0 ["B", "C"])] "A")) ∧
    ((RoutingTable.mk [("A", defaultTargetPod)] "A").active_pod ∈
        (RoutingTable.mk [("A", defaultTargetPod)] "A").keys ∧
      (RoutingTable.mk [("A", defaultTargetPod)] "A").outEdgesOf
        (RoutingTable.mk [("A", defaultTargetPod)] "A").active_pod = [] ∧
      (RoutingTable.mk [("A", defaultTargetPod)] "A").get_next_targets =
        ([], RoutingTable.mk [("A", defaultTargetPod)] "A")) :=
  ⟨⟨by decide, by decide,
      claim_C5_get_next_targets.1 (RoutingTable.mk [("A", TargetPod.mk "" 0 0 ["B", "C"])] "A")
        "B" "C" (by decide) (by decide)⟩,
    ⟨by decide, by decide,
      claim_C5_get_next_targets.2 (RoutingTable.mk [("A", defaultTargetPod)] "A")
        (by decide) (by decide)⟩⟩

/-- C7: after any sequence of `add_edge` calls on the empty table, a node's
`expected_parts` equals exactly the number of calls whose "to" argument was
that node (hence order-independent); `add_edge` get-or-creates both endpoint
slots; and none of the other operations (`add_pod`, assigning `active_pod`,
`active_target_pod`, `get_next_targets`) changes any node's
`expected_parts`. -/
theorem claim_C7_expected_parts_counts :
    (∀ (es : List (String × String)) (n : String),
      ((applyEdges emptyRoutingTable es).getPodD n).expected_parts =
        (es.filter (fun e => decide (e.2 = n))).length) ∧
    (∀ (t : RoutingTable) (f tp : String),
      f ∈ (t.add_edge f tp).keys ∧ tp ∈ (t.add_edge f tp).keys) ∧
    (∀ (t : RoutingTable) (n h : String) (p : Nat) (m : String),
      (((t.add_pod n h p).1).getPodD m).expected_parts =
        (t.getPodD m).expected_parts) ∧
    (∀ (t : RoutingTable) (a m : String),
      (({ t with active_pod := a }).getPodD m).expected_parts =
        (t.getPodD m).expected_parts) ∧
    (∀ (t : RoutingTable) (m : String),
      ((t.active_target_pod.2).getPodD m).expected_parts =
        (t.getPodD m).expected_parts) ∧
    (∀ (t : RoutingTable) (m : String),
      ((t.get_next_targets.2).getPodD m).expected_parts =
        (t.getPodD m).expected_parts) := by
  refine ⟨?_, ?_, ?_, ?_, ?_, ?_⟩
  · intro es n
    rw [expected_parts_applyEdges, getPodD_empty]
    simp [defaultTargetPod]
  · intro t f tp
    constructor
    · rw [mem_keys_add_edge]
      tauto
    · rw [mem_keys_add_edge]
      tauto
  · intro t n h p m
    rw [RoutingTable.add_pod]
    by_cases hn : n ∈ t.keys
    · rw [if_pos hn]
    · rw [if_neg hn]
      show ((t.modifyPod n _).getPodD m).expected_parts = _
      rw [getPodD_modifyPod]
      by_cases hnm : n = m
      · rw [if_pos hnm, hnm]
      · rw [if_neg hnm]
  · intro t a m
    rfl
  · intro t m
    show ((t.ensurePod t.active_pod).getPodD m).expected_parts = _
    rw [getPodD_ensurePod]
  · intro t m
    show ((t.ensurePod t.active_pod).getPodD m).expected_parts = _
    rw [getPodD_ensurePod]

/-- C6: a snapshot `S` built by `RoutingTable(T, copy=True)` occupies a fresh
cell equal in value to `T`'s; afterwards, running any mutation (assigning
`active_pod`, `add_edge`, `add_pod`) through `S`'s handle leaves `T`'s cell
— every observable field — unchanged, and running any mutation through `T`'s
handle leaves `S`'s cell unchanged. -/
theorem claim_C6_copy_isolation (s : TableStore) (hT : Nat) (hv : hT < s.length)
    (m m2 : TableMutation) :
    readTable (initFromTable s hT true).1 (initFromTable s hT true).2 =
      readTable s hT ∧
    readTable (applyMutation (initFromTable s hT true).1
      (initFromTable s hT true).2 m) hT = readTable s hT ∧
    readTable (applyMutation (initFromTable s hT true).1 hT m2)
      (initFromTable s hT true).2 = readTable s hT := by
  have hinit : initFromTable s hT true = (s ++ [readTable s hT], s.length) := rfl
  have hne : s.length ≠ hT := Nat.ne_of_gt hv
  have hr1 : readTable (s ++ [readTable s hT]) s.length = readTable s hT :=
    readTable_concat_self s _
  have hr0 : readTable (s ++ [readTable s hT]) hT = readTable s hT :=
    readTable_append s _ hT hv
  refine ⟨by rw [hinit]; exact hr1, ?_, ?_⟩
  · rw [hinit]
    cases m with
    | setActivePod n =>
      rw [applyMutation, readTable_write_ne _ _ _ _ hne]
      exact hr0
    | addEdgeMut f t2 =>
      rw [applyMutation, readTable_write_ne _ _ _ _ hne]
      exact hr0
    | addPodMut n ho p =>
      rw [applyMutation, readTable_write_ne _ _ _ _ hne]
      exact hr0
  · rw [hinit]
    cases m2 with
    | setActivePod n =>
      rw [applyMutation, readTable_write_ne _ _ _ _ (Ne.symm hne)]
      exact hr1
    | addEdgeMut f t2 =>
      rw [applyMutation, readTable_write_ne _ _ _ _ (Ne.symm hne)]
      exact hr1
    | addPodMut n ho p =>
      rw [applyMutation, readTable_write_ne _ _ _ _ (Ne.symm hne)]
      exact hr1

/-- C6 witness: the theorem applied to a one-cell store, reassigning the
snapshot's active pod and adding an edge through the source handle. -/
theorem claim_C6_copy_isolation_witness :
    (0 : Nat) < [emptyRoutingTable].length ∧
    (readTable (initFromTable [emptyRoutingTable] 0 true).1
        (initFromTable [emptyRoutingTable] 0 true).2 =
      readTable [emptyRoutingTable] 0 ∧
    readTable (applyMutation (initFromTable [emptyRoutingTable] 0 true).1
      (initFromTable [emptyRoutingTable] 0 true).2
      (TableMutation.setActivePod "Z")) 0 = readTable [emptyRoutingTable] 0 ∧
    readTable (applyMutation (initFromTable [emptyRoutingTable] 0 true).1 0
      (TableMutation.addEdgeMut "A" "B"))
      (initFromTable [emptyRoutingTable] 0 true).2 =
      readTable [emptyRoutingTable] 0) :=
  ⟨by decide,
    claim_C6_copy_isolation [emptyRoutingTable] 0 (by decide)
      (TableMutation.setActivePod "Z") (TableMutation.addEdgeMut "A" "B")⟩

/-- C8: after any sequence of `add_edge` calls on the empty table, a node's
`out_edges` list is exactly the ordered list of "to" arguments of the calls
whose "from" argument was that node, duplicates preserved. -/
theorem claim_C8_out_edges_order :
    ∀ (es : List (String × String)) (n : String),
      (applyEdges emptyRoutingTable es).outEdgesOf n =
        (es.filter (fun e => decide (e.1 = n))).map Prod.snd := by
  intro es n
  rw [out_edges_applyEdges]
  show emptyRoutingTable.outEdgesOf n ++ _ = _
  rw [RoutingTable.outEdgesOf, getPodD_empty]
  rfl

/-- C9: constructing from an unsupported input type fails with
`BadRequestType` wrapping the `ValueError('... is not recognizable')`; any
decoder failure on dict, str or bytes input is reported as `BadRequestType`
wrapping the decoder's own exception; and every construction failure
whatsoever is a `BadRequestType`, never a raw decoder exception. -/
theorem claim_C9_bad_input
    (pd : List (String × String) → Except PyException RoutingTable)
    (ps : String → Except PyException RoutingTable)
    (pb : List Nat → Except PyException RoutingTable) (copy : Bool) :
    (∀ ty, initRoutingTable pd ps pb copy (GraphInput.other ty) =
      Except.error (PyException.badRequestType (PyException.valueError ty))) ∧
    (∀ d e, pd d = Except.error e →
      initRoutingTable pd ps pb copy (GraphInput.fromDict d) =
        Except.error (PyException.badRequestType e)) ∧
    (∀ s2 e, ps s2 = Except.error e →
      initRoutingTable pd ps pb copy (GraphInput.fromString s2) =
        Except.error (PyException.badRequestType e)) ∧
    (∀ b e, pb b = Except.error e →
      initRoutingTable pd ps pb copy (GraphInput.fromBytes b) =
        Except.error (PyException.badRequestType e)) ∧
    (∀ g e, initRoutingTable pd ps pb copy g = Except.error e →
      ∃ c2, e = PyException.badRequestType c2) := by
  refine ⟨fun ty => rfl, ?_, ?_, ?_, ?_⟩
  · intro d e he
    rw [initRoutingTable, he]
  · intro s2 e he
    rw [initRoutingTable, he]
  · intro b e he
    rw [initRoutingTable, he]
  · intro g e he
    cases g with
    | fromTable t =>
      rw [initRoutingTable] at he
      cases he
    | fromProto p =>
      rw [initRoutingTable] at he
      cases he
    | fromDict d =>
      rw [initRoutingTable] at he
      rcases hd : pd d with e2 | t
      · rw [hd] at he
        cases he
        exact ⟨_, rfl⟩
      · rw [hd] at he
        cases he
    | fromString s2 =>
      rw [initRoutingTable] at he
      rcases hd : ps s2 with e2 | t
      · rw [hd] at he
        cases he
        exact ⟨_, rfl⟩
      · rw [hd] at he
        cases he
    | fromBytes b =>
      rw [initRoutingTable] at he
      rcases hd : pb b with e2 | t
      · rw [hd] at he
        cases he
        exact ⟨_, rfl⟩
      · rw [hd] at he
        cases he
    | fromNone =>
      rw [initRoutingTable] at he
      cases he
    | other ty =>
      rw [initRoutingTable] at he
      cases he
      exact ⟨PyException.valueError ty, rfl⟩

/-- C9 witness: the decoder-failure conjuncts applied to concrete always-fail
decoders, and the uniformity conjunct applied to the `other` input `int`. -/
theorem claim_C9_bad_input_witness :
    ((fun _ : List (String × String) =>
        (Except.error (PyException.decodeError "bad dict") :
          Except PyException RoutingTable)) [] =
      Except.error (PyException.decodeError "bad dict") ∧
     initRoutingTable
        (fun _ => Except.error (PyException.decodeError "bad dict"))
        (fun _ => Except.error (PyException.decodeError "bad str"))
        (fun _ => Except.error (PyException.decodeError "bad bytes"))
        false (GraphInput.fromDict []) =
      Except.error (PyException.badRequestType (PyException.decodeError "bad dict"))) ∧
    (initRoutingTable
        (fun _ => Except.error (PyException.decodeError "bad dict"))
        (fun _ => Except.error (PyException.decodeError "bad str"))
        (fun _ => Except.error (PyException.decodeError "bad bytes"))
        false (GraphInput.other "int") =
      Except.error (PyException.badRequestType (PyException.valueError "int")) ∧
     ∃ c2, PyException.badRequestType (PyException.valueError "int") =
        PyException.badRequestType c2) :=
  ⟨⟨rfl,
    (claim_C9_bad_input
      (fun _ => Except.error (PyException.decodeError "bad dict"))
      (fun _ => Except.error (PyException.decodeError "bad str"))
      (fun _ => Except.error (PyException.decodeError "bad bytes")) false).2.1
      [] (PyException.decodeError "bad dict") rfl⟩,
   ⟨rfl,
    (claim_C9_bad_input
      (fun _ => Except.error (PyException.decodeError "bad dict"))
      (fun _ => Except.error (PyException.decodeError "bad str"))
      (fun _ => Except.error (PyException.decodeError "bad bytes")) false).2.2.2.2
      (GraphInput.other "int")
      (PyException.badRequestType (PyException.valueError "int")) rfl⟩⟩

/-- C10: constructing from `None` (the zero-argument default) raises no error
and yields the empty table — zero pods and an unset (empty) `active_pod` —
with `None` exempted from the bad-input error that covers other unrecognized
shapes. -/
theorem claim_C10_none_gives_empty
    (pd : List (String × String) → Except PyException RoutingTable)
    (ps : String → Except PyException RoutingTable)
    (pb : List Nat → Except PyException RoutingTable) (copy : Bool) :
    initRoutingTable pd ps pb copy GraphInput.fromNone =
      Except.ok emptyRoutingTable ∧
    emptyRoutingTable.pods = [] ∧ emptyRoutingTable.active_pod = "" :=
  ⟨rfl, rfl, rfl⟩
